import Mathlib

/-!
Shallow embedding of the metadata-normalization parsers in
`adsingestp/parsers/arxiv.py` and `adsingestp/parsers/wiley.py`.

The tree-navigation library (BeautifulSoup) is an external collaborator:
its role is abstracted into input structures (`ArxivInput`, `WileyInput`)
holding, for each tag/attribute the parsers query, the text or attribute
values the tree accessor would return.  Every extraction function below is
a direct translation of the corresponding Python method; the mutable
`base_metadata` dict is modelled as an association list with
insertion-shadowing (`setKey` prepends, `getKey` returns the most recent
write), which matches Python dict lookup and key-membership semantics.
-/

/-- One entry of the Wiley author list (`author_tmp` dict in
`WileyParser._parse_authors`); absent dict keys are `none`. -/
structure AuthorEntry where
  given : Option String
  surname : Option String
  orcid : Option String
  email : Option String
  aff : Option (List String)
  xaff : Option (List String)
deriving DecidableEq, Repr

/-- Canonical-record field values, covering every shape the two parsers
store into `base_metadata`.  `idsA` is the arXiv nested ids dict
(preprint `(source, id)` pair, optional doi); `idsW` is the Wiley one
(optional doi, `pub-id` list of `(attribute, Identifier)`). -/
inductive MValue where
  | str : String → MValue
  | strList : List String → MValue
  | strPairs : List (String × String) → MValue
  | idsA : Option (String × String) → Option String → MValue
  | idsW : Option String → List (String × String) → MValue
  | authorsW : List AuthorEntry → MValue
deriving DecidableEq, Repr

/-- The in-progress `base_metadata` dict. -/
abbrev MetaDict := List (String × MValue)

/-- Write a key (Python `base_metadata[k] = v`); shadowing models overwrite. -/
def setKey (d : MetaDict) (k : String) (v : MValue) : MetaDict := (k, v) :: d

/-- Read a key; returns the most recent write, like Python dict lookup. -/
def getKey (k : String) : MetaDict → Option MValue
  | [] => none
  | (k', v) :: d => if k = k' then some v else getKey k d

/-- Split a character list at every occurrence of a separator character,
keeping empty segments: the semantics of Python `str.split(sep)`. -/
def splitCh (sep : Char) : List Char → List (List Char)
  | [] => [[]]
  | c :: rest =>
    if c = sep then [] :: splitCh sep rest
    else
      match splitCh sep rest with
      | h :: t => (c :: h) :: t
      | [] => [[c]]

/-- Split at every occurrence of the 4-character pattern `doi:`,
left-to-right and non-overlapping, the way Python `str.split("doi:")`
and (joined back with nothing) `str.replace("doi:", "")` behave. -/
def splitDoi : List Char → List (List Char)
  | 'd' :: 'o' :: 'i' :: ':' :: rest => [] :: splitDoi rest
  | c :: rest =>
    match splitDoi rest with
    | h :: t => (c :: h) :: t
    | [] => [[c]]
  | [] => [[]]

/-- Python `"doi:" in s`. -/
def containsDoi (s : String) : Bool := 2 ≤ (splitDoi s.data).length

/-- Python `s.replace("doi:", "")`. -/
def removeDoi (s : String) : String := ⟨(splitDoi s.data).flatten⟩

/-- Python `s.split(":")[-1]` (split never yields an empty list). -/
def lastSegColon (s : String) : String := ⟨(splitCh ':' s.data).getLastD []⟩

/-- Split at every character satisfying a predicate, keeping empty
segments. -/
def splitChP (p : Char → Bool) : List Char → List (List Char)
  | [] => [[]]
  | c :: rest =>
    if p c then [] :: splitChP p rest
    else
      match splitChP p rest with
      | h :: t => (c :: h) :: t
      | [] => [[c]]

/-- Python whitespace `str.split()`: split on whitespace runs, dropping
empty segments. -/
def pySplitWs (s : String) : List String :=
  ((splitChP Char.isWhitespace s.data).filter (fun l => !l.isEmpty)).map (fun l => ⟨l⟩)

/-- Python `s[-5:]`. -/
def takeLast5 (s : String) : String := ⟨s.data.drop (s.data.length - 5)⟩

/-- Python `s.replace("#", "")`. -/
def stripHash (s : String) : String := ⟨s.data.filter (fun c => !(c = '#'))⟩

/-- The fixed ORCID pattern of `wiley.py` line 9,
`(\d{4}-){3}\d{3}(\d|X)`: a full 19-character candidate match. -/
def isOrcidShape : List Char → Bool
  | [a, b, c, d, '-', e, f, g, h, '-', i, j, k, l, '-', m, n, o, p] =>
    a.isDigit && b.isDigit && c.isDigit && d.isDigit && e.isDigit && f.isDigit &&
      g.isDigit && h.isDigit && i.isDigit && j.isDigit && k.isDigit && l.isDigit &&
      m.isDigit && n.isDigit && o.isDigit && (p.isDigit || p = 'X')
  | _ => false

/-- Leftmost match of the ORCID pattern (Python `re.search` + `.group(0)`):
the pattern has a fixed 19-character shape, so the leftmost match is the
first position whose next 19 characters fit it. -/
def orcidSearchAux : List Char → Option (List Char)
  | [] => none
  | c :: rest =>
    if isOrcidShape ((c :: rest).take 19) then some ((c :: rest).take 19)
    else orcidSearchAux rest

/-- `orcid_format.search(s).group(0)` when a match exists, else `None`. -/
def orcidSearch (s : String) : Option String := (orcidSearchAux s.data).map (fun l => ⟨l⟩)

/-- An `<id>` node under `publicationMeta level="unit"`: its `type` and
`value` attributes and its text content. -/
structure UnitId where
  idType : String
  idValue : String
  idText : String
deriving DecidableEq, Repr

/-- A `<creator>` node under `contentMeta`: optional `givenNames` /
`familyName` / `email` child text, the `(type, value)` attribute pairs of
its `<id>` children, and the optional `affiliationRef` attribute. -/
structure Creator where
  given : Option String
  surname : Option String
  cids : List (String × String)
  email : Option String
  affiliationRef : Option String
deriving DecidableEq, Repr

/-- The values the BeautifulSoup tree accessor hands `WileyParser` for one
well-formed Wiley document (one in which the `publicationMeta`
product/part/unit nodes and `contentMeta` exist).  List fields hold the
results of the corresponding `find_all` in document order; `Option`
fields model `find`/attribute presence. -/
structure WileyInput where
  issns : List (String × String)
  doi : Option String
  unitIds : List UnitId
  prodTitles : List (String × String)
  partNumbering : List (String × String)
  unitNumbering : List (String × String)
  countGroupCount : Option (String × String)
  coverDate : Option String
  events : List (String × String)
  titleGroup : Option (List (String × String))
  abstractGroup : Option (List (String × String))
  copyrightText : Option String
  affiliations : List (String × String)
  creators : List Creator
  keywords : List String
  bib : Option (List String)
deriving Repr

/-- `WileyParser._parse_ids` (wiley.py lines 20-35): issn pairs, optional
doi, and `pub-id` entries for ids that are neither `society` nor
`eLocator`. -/
def wiley_parse_ids (w : WileyInput) (d : MetaDict) : MetaDict :=
  let pubids := (w.unitIds.filter
      (fun i => !(i.idType == "society" || i.idType == "eLocator"))).map
      (fun i => (i.idType, i.idValue))
  let d := setKey d "ids" (MValue.idsW w.doi pubids)
  setKey d "issn" (MValue.strPairs w.issns)

/-- `WileyParser._parse_pub` (wiley.py lines 37-46). -/
def wiley_parse_pub (w : WileyInput) (d : MetaDict) : MetaDict :=
  let d := w.prodTitles.foldl
    (fun d t => if t.1 = "main" then setKey d "publication" (MValue.str t.2) else d) d
  w.partNumbering.foldl
    (fun d n =>
      if n.1 = "journalVolume" then setKey d "volume" (MValue.str n.2)
      else if n.1 = "journalIssue" then setKey d "issue" (MValue.str n.2)
      else d) d

/-- One step of the first loop of `_parse_page` (wiley.py lines 50-55):
state is `(page_first, dict)`. -/
def wileyPageNumStep (acc : Option String × MetaDict) (n : String × String) :
    Option String × MetaDict :=
  if n.1 = "pageFirst" then (some n.2, acc.2)
  else if n.1 = "pageLast" then
    if n.2 = "n/a" ∨ n.2 = "no" then acc
    else (acc.1, setKey acc.2 "page_last" (MValue.str n.2))
  else acc

/-- One step of the fallback loop of `_parse_page` (wiley.py lines 56-62). -/
def wileyPageIdStep (acc : Option String × MetaDict) (i : UnitId) :
    Option String × MetaDict :=
  let pf := if i.idType = "society" then some i.idText else acc.1
  let d := if i.idType = "eLocator"
    then setKey acc.2 "electronic_id" (MValue.str (takeLast5 i.idText))
    else acc.2
  (pf, d)

/-- First loop of `_parse_page` over the `numbering` nodes. -/
def wileyPagePhase1 (w : WileyInput) (d : MetaDict) : Option String × MetaDict :=
  w.unitNumbering.foldl wileyPageNumStep (none, d)

/-- Fallback loop of `_parse_page` over the `id` nodes, entered only when
no `pageFirst` was seen. -/
def wileyPagePhase2 (w : WileyInput) (acc : Option String × MetaDict) :
    Option String × MetaDict :=
  if acc.1 = none then w.unitIds.foldl wileyPageIdStep (none, acc.2) else acc

/-- Sentinel filtering and the final `page_first` write of `_parse_page`. -/
def wileyPagePhase3 (acc : Option String × MetaDict) : MetaDict :=
  let pf := if acc.1 = some "n/a" ∨ acc.1 = some "no" then none else acc.1
  match pf with
  | some p => setKey acc.2 "page_first" (MValue.str p)
  | none => acc.2

/-- The `countGroup` tail of `_parse_page`. -/
def wileyPagePhase4 (w : WileyInput) (d : MetaDict) : MetaDict :=
  match w.countGroupCount with
  | some c => if c.1 = "pageTotal" then setKey d "numpages" (MValue.str c.2) else d
  | none => d

/-- `WileyParser._parse_page` (wiley.py lines 48-76). -/
def wiley_parse_page (w : WileyInput) (d : MetaDict) : MetaDict :=
  wileyPagePhase4 w (wileyPagePhase3 (wileyPagePhase2 w (wileyPagePhase1 w d)))

/-- The event loop of `WileyParser._parse_pubdate` (wiley.py lines 92-105):
returns the final value written to `pubdate_electronic` (`none` when the
loop never writes).  State: current value and the `found` flag; the
`firstOnline` branch breaks out of the loop. -/
def pubdateLoop : List (String × String) → Option String → Bool → Option String
  | [], pe, _ => pe
  | e :: rest, pe, found =>
    if e.1 = "firstOnline" then some e.2
    else if e.1 = "publishedOnlineFinalForm" then pubdateLoop rest (some e.2) true
    else if e.1 = "publishedOnlineAccepted" ∧ ¬found then pubdateLoop rest (some e.2) found
    else pubdateLoop rest pe found

/-- `WileyParser._parse_pubdate` (wiley.py lines 78-105): cover-date print
date plus the precedence loop over `<event>` nodes. -/
def wiley_parse_pubdate (w : WileyInput) (d : MetaDict) : MetaDict :=
  let d := match w.coverDate with
    | some sd =>
      let parts := splitCh '-' sd.data
      let year : String := ⟨parts.headD []⟩
      let month : String := if 1 < parts.length then ⟨parts.getD 1 []⟩ else "00"
      let day : String := if 2 < parts.length then ⟨parts.getD 2 []⟩ else "00"
      setKey d "pubdate_print" (MValue.str (year ++ "-" ++ month ++ "-" ++ day))
    | none => d
  match pubdateLoop w.events none false with
  | some dt => setKey d "pubdate_electronic" (MValue.str dt)
  | none => d

/-- `WileyParser._parse_edhistory` (wiley.py lines 107-122). -/
def wiley_parse_edhistory (w : WileyInput) (d : MetaDict) : MetaDict :=
  w.events.foldl
    (fun d e =>
      if e.1 = "manuscriptRevised" then setKey d "edhist_rev" (MValue.strList [e.2])
      else if e.1 = "manuscriptReceived" then setKey d "edhist_rec" (MValue.strList [e.2])
      else if e.1 = "manuscriptAccepted" then setKey d "edhist_acc" (MValue.str e.2)
      else d) d

/-- `WileyParser._parse_title_abstract` (wiley.py lines 124-135);
`clean` is the external `_clean_output` collaborator. -/
def wiley_parse_title_abstract (clean : String → String) (w : WileyInput)
    (d : MetaDict) : MetaDict :=
  let d := match w.titleGroup with
    | some ts => ts.foldl
        (fun d t => if t.1 = "main" then setKey d "title" (MValue.str t.2) else d) d
    | none => d
  match w.abstractGroup with
  | some al => al.foldl
      (fun d a => if a.1 = "main" then setKey d "abstract" (MValue.str (clean a.2)) else d) d
  | none => d

/-- `WileyParser._parse_copyright` (wiley.py lines 137-139). -/
def wiley_parse_copyright (w : WileyInput) (d : MetaDict) : MetaDict :=
  match w.copyrightText with
  | some c => setKey d "copyright" (MValue.str c)
  | none => d

/-- Python-dict lookup in the affiliation cross-reference table
(`aff_dict`), built by later-wins insertion over the document's
`<affiliation>` nodes; recursion checks later entries first. -/
def dictGetLast : List (String × String) → String → Option String
  | [], _ => none
  | (k', v) :: t, k =>
    match dictGetLast t k with
    | some r => some r
    | none => if k = k' then some v else none

/-- Python `aff_dict.get(a)` used in a boolean position: a missing key or
an empty-string value are both falsy. -/
def truthyGet (l : List (String × String)) (k : String) : Option String :=
  match dictGetLast l k with
  | some v => if v = "" then none else some v
  | none => none

/-- The inner label loop of `WileyParser._parse_authors` (wiley.py lines
169-175).  `akey` is the Python local of that name: it survives from one
iteration (and one creator) to the next, and reading it before any
assignment raises `UnboundLocalError`; `aff_dict[akey]` with a key that
is no longer checked raises `KeyError` (unreachable here, modelled
anyway). -/
def nextAkey (affD : List (String × String)) (a : String)
    (akey : Option String) : Option String :=
  if (truthyGet affD a).isSome then some a
  else if (truthyGet affD (stripHash a)).isSome then some (stripHash a)
  else akey

def resolveAffs (affD : List (String × String)) :
    List String → Option String → List String → List String →
    Except String (List String × List String × Option String)
  | [], akey, xaffs, affs => .ok (xaffs, affs, akey)
  | a :: rest, akey, xaffs, affs =>
    match nextAkey affD a akey with
    | none => .error "UnboundLocalError"
    | some kk =>
      match dictGetLast affD kk with
      | none => .error "KeyError"
      | some v => resolveAffs affD rest (some kk) (xaffs ++ [kk]) (affs ++ [v])

/-- The per-creator body of `WileyParser._parse_authors` (wiley.py lines
150-178), threading the shared `akey` local through; returns the
`author_tmp` entry and the updated `akey`. -/
def buildAuthor (affD : List (String × String)) (akey : Option String)
    (c : Creator) : Except String (AuthorEntry × Option String) :=
  let orcid := c.cids.foldl
    (fun o idp =>
      if idp.1 = "orcid" then
        match orcidSearch idp.2 with
        | some m => some m
        | none => o
      else o) none
  match c.affiliationRef with
  | some ref =>
    match resolveAffs affD (pySplitWs ref) akey [] [] with
    | .error e => .error e
    | .ok (xaffs, affs, akey') =>
      .ok (⟨c.given, c.surname, orcid, c.email, some affs, some xaffs⟩, akey')
  | none => .ok (⟨c.given, c.surname, orcid, c.email, none, none⟩, akey)

/-- The creator loop of `WileyParser._parse_authors`, accumulating
`author_list`. -/
def buildAuthors (affD : List (String × String)) :
    List Creator → Option String → List AuthorEntry →
    Except String (List AuthorEntry)
  | [], _, acc => .ok acc
  | c :: rest, akey, acc =>
    match buildAuthor affD akey c with
    | .error e => .error e
    | .ok (a, akey') => buildAuthors affD rest akey' (acc ++ [a])

/-- `WileyParser._parse_authors` (wiley.py lines 141-181): builds the
affiliation table, resolves every creator, and stores `authors` only when
the list is non-empty. -/
def wiley_parse_authors (w : WileyInput) (d : MetaDict) :
    Except String MetaDict :=
  match buildAuthors w.affiliations w.creators none [] with
  | .error e => .error e
  | .ok authorList =>
    if authorList.isEmpty then .ok d
    else .ok (setKey d "authors" (MValue.authorsW authorList))

/-- `WileyParser._parse_keywords` (wiley.py lines 183-186): the keyword
list is accumulated into a local and never stored into `base_metadata`. -/
def wiley_parse_keywords (kws : List String) (d : MetaDict) : MetaDict :=
  let _keywords := kws.map (fun k => ("Wiley", k))
  d

/-- Python `str.replace("\n", " ").replace("\xa0", " ")`, character-wise. -/
def normRefChar (c : Char) : Char :=
  if c = '\n' ∨ c = Char.ofNat 160 then ' ' else c

/-- `WileyParser._parse_references` (wiley.py lines 188-196). -/
def wiley_parse_references (w : WileyInput) (d : MetaDict) : MetaDict :=
  match w.bib with
  | some cits =>
    setKey d "references" (MValue.strList (cits.map (fun r => String.map normRefChar r)))
  | none => d

/-- The pipeline prefix of `WileyParser.parse` up to (excluding) the
author step, in source order. -/
def wileyPreAuthors (clean : String → String) (w : WileyInput) : MetaDict :=
  wiley_parse_copyright w
    (wiley_parse_title_abstract clean w
      (wiley_parse_edhistory w
        (wiley_parse_pubdate w
          (wiley_parse_page w
            (wiley_parse_pub w
              (wiley_parse_ids w ([] : MetaDict)))))))

/-- `WileyParser.parse` (wiley.py lines 198-233) after tree loading, up to
the external `format` hand-off: the extraction pipeline in source order. -/
def wileyParse (clean : String → String) (w : WileyInput) :
    Except String MetaDict :=
  match wiley_parse_authors w (wileyPreAuthors clean w) with
  | .error e => .error e
  | .ok d => .ok (wiley_parse_references w (wiley_parse_keywords w.keywords d))

/-- The dict of a successful parse (`[]` for a failed one). -/
def resultDict (e : Except String MetaDict) : MetaDict := e.toOption.getD []

/-- Whether a parse succeeded. -/
def isOkE (e : Except String MetaDict) : Bool :=
  match e with
  | .ok _ => true
  | .error _ => false

/-- The regex `<record(?!-)[^>]*>` of `MultiArxivParser.start_re`
(arxiv.py line 17), as full-tag matching: literal `<record`, a negative
lookahead for `-`, any run of non-`>` characters, then `>`. -/
def afterRecordMatch (cs : List Char) : Bool :=
  !(cs.head? == some '-') && (cs.getLast? == some '>') &&
    cs.dropLast.all (fun c => !(c == '>'))

/-- Whether `MultiArxivParser.start_re` matches a whole tag token. -/
def startReMatch : List Char → Bool
  | '<' :: 'r' :: 'e' :: 'c' :: 'o' :: 'r' :: 'd' :: rest => afterRecordMatch rest
  | _ => false

/-- Whether `MultiArxivParser.end_re` (`</record(?!-)[^>]*>`, arxiv.py
line 18) matches a whole tag token. -/
def endReMatch : List Char → Bool
  | '<' :: '/' :: 'r' :: 'e' :: 'c' :: 'o' :: 'r' :: 'd' :: rest => afterRecordMatch rest
  | _ => false

/-- String front-end for `startReMatch`. -/
def startReMatchS (s : String) : Bool := startReMatch s.data

/-- String front-end for `endReMatch`. -/
def endReMatchS (s : String) : Bool := endReMatch s.data

/-- `ArxivParser.DUBCORE_SCHEMA` (arxiv.py line 39). -/
def DUBCORE_SCHEMA : List String := ["http://www.openarchives.org/OAI/2.0/oai_dc/"]

/-- The values the tree accessor hands `ArxivParser` for one record whose
`header` and `metadata`/`oai_dc:dc` nodes exist: optional header
`identifier` text, the optional `xmlns:oai_dc` attribute, and the text of
the `dc:*` node lists in document order (`dcDate` is the first `dc:date`
node's text). -/
structure ArxivInput where
  headerIdentifier : Option String
  schemaAttr : Option String
  dcIdentifiers : List String
  dcTitles : List String
  dcCreators : List String
  dcDate : Option String
  dcDescriptions : List String
  dcSubjects : List String
deriving Repr

/-- The `dc:identifier` loop of `ArxivParser._parse_ids` (arxiv.py lines
66-70): a `doi:`-containing text stores the text with `doi:` removed
under the nested ids dict; if `ids` was never created (no header
identifier) the nested assignment raises `KeyError`. -/
def arxivDoiFold : List String → MetaDict → Except String MetaDict
  | [], d => .ok d
  | t :: rest, d =>
    if containsDoi t then
      match getKey "ids" d with
      | some (MValue.idsA pre _) =>
        arxivDoiFold rest (setKey d "ids" (MValue.idsA pre (some (removeDoi t))))
      | _ => .error "KeyError"
    else arxivDoiFold rest d

/-- `ArxivParser._parse_ids` (arxiv.py lines 52-70): the primary
identifier is the last colon-separated segment of the header identifier
text. -/
def arxiv_parse_ids (hid : Option String) (dcIds : List String) (d : MetaDict) :
    Except String MetaDict :=
  let d := match hid with
    | some ids =>
      let arxiv_id := lastSegColon ids
      let d := setKey d "publication" (MValue.str ("eprint arXiv:" ++ arxiv_id))
      setKey d "ids" (MValue.idsA (some ("arXiv", arxiv_id)) none)
    | none => d
  arxivDoiFold dcIds d

/-- `ArxivParser._parse_title` (arxiv.py lines 72-81); `clean` is the
external `_clean_output` collaborator. -/
def arxiv_parse_title (clean : String → String) (titles : List String)
    (d : MetaDict) : Except String MetaDict :=
  match titles with
  | [] => .error "MissingTitleException"
  | [t] => .ok (setKey d "title" (MValue.str (clean t)))
  | ts => .ok (setKey d "title" (MValue.str (clean (String.intercalate ": " ts))))

/-- `ArxivParser._parse_author` (arxiv.py lines 83-99); `np` is the
external `utils.AuthorNames().parse` collaborator, yielding zero or more
parsed names per `dc:creator` text. -/
def arxiv_parse_author (np : String → List String) (creators : List String)
    (d : MetaDict) : Except String MetaDict :=
  let authors_out := (creators.map np).flatten
  if authors_out.isEmpty then .error "MissingAuthorsException"
  else .ok (setKey d "authors" (MValue.strList authors_out))

/-- `ArxivParser._parse_pubdate` (arxiv.py lines 101-105). -/
def arxiv_parse_pubdate (dcDate : Option String) (d : MetaDict) : MetaDict :=
  match dcDate with
  | some t => setKey d "pubdate_electronic" (MValue.str t)
  | none => d

/-- `ArxivParser._parse_abstract` (arxiv.py lines 107-118): the first
description is the abstract, the rest become `(origin, text)` comments. -/
def arxiv_parse_abstract (clean : String → String) (descs : List String)
    (d : MetaDict) : MetaDict :=
  match descs with
  | [] => d
  | a :: rest =>
    let d := setKey d "abstract" (MValue.str (clean a))
    if rest.isEmpty then d
    else setKey d "comments" (MValue.strPairs (rest.map (fun t => ("arxiv", clean t))))

/-- `ArxivParser._parse_keywords` (arxiv.py lines 120-127). -/
def arxiv_parse_keywords (subs : List String) (d : MetaDict) : MetaDict :=
  if subs.isEmpty then d
  else setKey d "keywords" (MValue.strPairs (subs.map (fun k => ("arxiv", k))))

/-- The field-extraction pipeline of `ArxivParser.parse` (arxiv.py lines
151-156), run after the schema check passes. -/
def arxivExtract (np : String → List String) (clean : String → String)
    (w : ArxivInput) : Except String MetaDict :=
  match arxiv_parse_ids w.headerIdentifier w.dcIdentifiers [] with
  | .error e => .error e
  | .ok d =>
    match arxiv_parse_title clean w.dcTitles d with
    | .error e => .error e
    | .ok d =>
      match arxiv_parse_author np w.dcCreators d with
      | .error e => .error e
      | .ok d =>
        .ok (arxiv_parse_keywords w.dcSubjects
          (arxiv_parse_abstract clean w.dcDescriptions
            (arxiv_parse_pubdate w.dcDate d)))

/-- `ArxivParser.parse` (arxiv.py lines 129-162) after tree loading, up
to the external `_entity_convert`/`format` hand-off: the schema dispatch
of lines 145-149 followed by field extraction. -/
def arxivParse (np : String → List String) (clean : String → String)
    (w : ArxivInput) : Except String MetaDict :=
  let schema_spec := w.schemaAttr.getD ""
  if schema_spec = "" then .error "NoSchemaException"
  else if schema_spec ∈ DUBCORE_SCHEMA then arxivExtract np clean w
  else .error "WrongSchemaException"

/-- Last element of a list satisfying a predicate (document-order
last-wins selection). -/
def lastFind {α : Type} (p : α → Bool) : List α → Option α
  | [] => none
  | x :: t =>
    match lastFind p t with
    | some e => some e
    | none => if p x then some x else none

/-- A Wiley input whose only content is its `<event>` node list. -/
def wEvOnly (evs : List (String × String)) : WileyInput :=
  ⟨[], none, [], [], [], [], none, none, evs, none, none, none, [], [], [], none⟩

/-- A concrete stand-in for the external name-splitting collaborator:
each creator text yields one parsed name. -/
def np1 : String → List String := fun s => [s]

/-- A well-formed arXiv record input with the supported schema. -/
def arxOk : ArxivInput :=
  ⟨some "oai:arXiv.org:2301.00001", some "http://www.openarchives.org/OAI/2.0/oai_dc/",
    [], ["A title"], ["An Author"], none, [], []⟩

/-- The same record with the `xmlns:oai_dc` attribute absent. -/
def arxNoSchema : ArxivInput :=
  ⟨some "oai:arXiv.org:2301.00001", none, [], ["A title"], ["An Author"], none, [], []⟩

/-- The same record with an unsupported `xmlns:oai_dc` attribute. -/
def arxWrong : ArxivInput :=
  ⟨some "oai:arXiv.org:2301.00001", some "http://example.org/other-schema",
    [], ["A title"], ["An Author"], none, [], []⟩

/-- The external name splitter of a collaboration-filtering configuration
that yields no names. -/
def npNone : String → List String := fun _ => []

/-- A Wiley document with one registered affiliation and one creator
whose `affiliationRef` label resolves to nothing (neither as given nor
with `#` stripped). -/
def wBadAff : WileyInput :=
  ⟨[], none, [], [], [], [], none, none, [], none, none, none,
    [("a1", "University One")],
    [⟨some "Ann", some "Author", [], none, some "#a2"⟩], [], none⟩

deriving instance DecidableEq for Except

/-- A Wiley document with two registered affiliations and one creator
referencing both. -/
def wGoodAff : WileyInput :=
  ⟨[], none, [], [], [], [], none, none, [], none, none, none,
    [("a1", "University One"), ("a2", "University Two")],
    [⟨some "Ann", some "Author", [], none, some "#a1 #a2"⟩], [], none⟩

theorem getKey_setKey (d : MetaDict) (k k' : String) (v : MValue) :
    getKey k (setKey d k' v) = if k = k' then some v else getKey k d := rfl

theorem getKey_setKey_ne (d : MetaDict) (k k' : String) (v : MValue) (h : k ≠ k') :
    getKey k (setKey d k' v) = getKey k d := by
  simp [getKey_setKey, h]

theorem lastFind_none {α : Type} (p : α → Bool) (l : List α)
    (h : lastFind p l = none) : ∀ y ∈ l, p y = false := by
  induction l with
  | nil => simp
  | cons x t ih =>
    intro y hy
    simp only [lastFind] at h
    cases ht : lastFind p t with
    | some e => rw [ht] at h; simp at h
    | none =>
      rw [ht] at h
      by_cases hp : p x = true
      · rw [if_pos hp] at h; simp at h
      · rcases List.mem_cons.mp hy with hy | hy
        · subst hy; simpa using hp
        · exact ih ht y hy

theorem pubdateLoop_firstOnline :
    ∀ (l : List (String × String)) (e : String × String)
      (pe : Option String) (found : Bool),
      l.find? (fun p => p.1 == "firstOnline") = some e →
      pubdateLoop l pe found = some e.2 := by
  intro l
  induction l with
  | nil => intro e pe found h; simp [List.find?] at h
  | cons x t ih =>
    intro e pe found h
    by_cases hx : x.1 = "firstOnline"
    · simp only [List.find?_cons, hx, beq_self_eq_true, if_true, Option.some.injEq] at h
      subst h
      simp [pubdateLoop, hx]
    · have hpx : (x.1 == "firstOnline") = false := beq_eq_false_iff_ne.mpr hx
      simp only [List.find?_cons, hpx] at h
      simp only [pubdateLoop]
      rw [if_neg hx]
      by_cases hb : x.1 = "publishedOnlineFinalForm"
      · rw [if_pos hb]; exact ih e _ _ h
      · rw [if_neg hb]
        by_cases hc : x.1 = "publishedOnlineAccepted" ∧ ¬found
        · rw [if_pos hc]; exact ih e _ _ h
        · rw [if_neg hc]; exact ih e _ _ h

theorem pubdateLoop_skipAB (l : List (String × String)) (pe : Option String)
    (hA : ∀ y ∈ l, y.1 ≠ "firstOnline")
    (hB : ∀ y ∈ l, y.1 ≠ "publishedOnlineFinalForm") :
    pubdateLoop l pe true = pe := by
  induction l with
  | nil => rfl
  | cons x t ih =>
    simp only [pubdateLoop]
    rw [if_neg (hA x (List.mem_cons_self x t)), if_neg (hB x (List.mem_cons_self x t)),
      if_neg (by simp)]
    exact ih (fun y hy => hA y (List.mem_cons_of_mem x hy))
      (fun y hy => hB y (List.mem_cons_of_mem x hy))

theorem pubdateLoop_skipABC (l : List (String × String)) (pe : Option String)
    (found : Bool)
    (h : ∀ y ∈ l, y.1 ≠ "firstOnline" ∧ y.1 ≠ "publishedOnlineFinalForm" ∧
      y.1 ≠ "publishedOnlineAccepted") :
    pubdateLoop l pe found = pe := by
  induction l with
  | nil => rfl
  | cons x t ih =>
    obtain ⟨h1, h2, h3⟩ := h x (List.mem_cons_self x t)
    simp only [pubdateLoop]
    rw [if_neg h1, if_neg h2, if_neg (fun hc => h3 hc.1)]
    exact ih (fun y hy => h y (List.mem_cons_of_mem x hy))

theorem pubdateLoop_lastB :
    ∀ (l : List (String × String)) (e : String × String)
      (pe : Option String) (found : Bool),
      (∀ y ∈ l, y.1 ≠ "firstOnline") →
      lastFind (fun y => y.1 == "publishedOnlineFinalForm") l = some e →
      pubdateLoop l pe found = some e.2 := by
  intro l
  induction l with
  | nil => intro e pe found _ h; simp [lastFind] at h
  | cons x t ih =>
    intro e pe found hA h
    have hAx := hA x (List.mem_cons_self x t)
    have hAt : ∀ y ∈ t, y.1 ≠ "firstOnline" :=
      fun y hy => hA y (List.mem_cons_of_mem x hy)
    simp only [pubdateLoop]
    rw [if_neg hAx]
    simp only [lastFind] at h
    cases ht : lastFind (fun y => y.1 == "publishedOnlineFinalForm") t with
    | some e' =>
      rw [ht] at h
      have he : e' = e := by injection h
      subst he
      by_cases hb : x.1 = "publishedOnlineFinalForm"
      · rw [if_pos hb]; exact ih e' _ _ hAt ht
      · rw [if_neg hb]
        by_cases hc : x.1 = "publishedOnlineAccepted" ∧ ¬found
        · rw [if_pos hc]; exact ih e' _ _ hAt ht
        · rw [if_neg hc]; exact ih e' _ _ hAt ht
    | none =>
      rw [ht] at h
      by_cases hb : (x.1 == "publishedOnlineFinalForm") = true
      · rw [if_pos hb] at h
        have hxe : x = e := by injection h
        have hbeq : x.1 = "publishedOnlineFinalForm" := beq_iff_eq.mp hb
        rw [if_pos hbeq]
        have hBt : ∀ y ∈ t, y.1 ≠ "publishedOnlineFinalForm" := by
          intro y hy
          have := lastFind_none _ t ht y hy
          simpa using this
        rw [pubdateLoop_skipAB t (some x.2) hAt hBt, hxe]
      · rw [if_neg (by simpa using hb)] at h
        simp at h

theorem pubdateLoop_lastC :
    ∀ (l : List (String × String)) (e : String × String) (pe : Option String),
      (∀ y ∈ l, y.1 ≠ "firstOnline" ∧ y.1 ≠ "publishedOnlineFinalForm") →
      lastFind (fun y => y.1 == "publishedOnlineAccepted") l = some e →
      pubdateLoop l pe false = some e.2 := by
  intro l
  induction l with
  | nil => intro e pe _ h; simp [lastFind] at h
  | cons x t ih =>
    intro e pe hAB h
    obtain ⟨hAx, hBx⟩ := hAB x (List.mem_cons_self x t)
    have hABt : ∀ y ∈ t, y.1 ≠ "firstOnline" ∧ y.1 ≠ "publishedOnlineFinalForm" :=
      fun y hy => hAB y (List.mem_cons_of_mem x hy)
    simp only [pubdateLoop]
    rw [if_neg hAx, if_neg hBx]
    simp only [lastFind] at h
    cases ht : lastFind (fun y => y.1 == "publishedOnlineAccepted") t with
    | some e' =>
      rw [ht] at h
      have he : e' = e := by injection h
      subst he
      by_cases hc : x.1 = "publishedOnlineAccepted" ∧ ¬(false : Bool)
      · rw [if_pos hc]; exact ih e' _ hABt ht
      · rw [if_neg hc]; exact ih e' _ hABt ht
    | none =>
      rw [ht] at h
      by_cases hc : (x.1 == "publishedOnlineAccepted") = true
      · rw [if_pos hc] at h
        have hxe : x = e := by injection h
        have hceq : x.1 = "publishedOnlineAccepted" := beq_iff_eq.mp hc
        rw [if_pos (by exact ⟨hceq, by simp⟩)]
        have hCt : ∀ y ∈ t, y.1 ≠ "publishedOnlineAccepted" := by
          intro y hy
          have := lastFind_none _ t ht y hy
          simpa using this
        rw [pubdateLoop_skipABC t (some x.2) false
          (fun y hy => ⟨(hABt y hy).1, (hABt y hy).2, hCt y hy⟩), hxe]
      · rw [if_neg (by simpa using hc)] at h
        simp at h

theorem getKey_pubdate_electronic (w : WileyInput) (d : MetaDict) (dt : String)
    (h : pubdateLoop w.events none false = some dt) :
    getKey "pubdate_electronic" (wiley_parse_pubdate w d) = some (MValue.str dt) := by
  unfold wiley_parse_pubdate
  rw [h]
  rfl

/-- C1: for every Wiley record whose pubmeta_unit contains an event node
of type `firstOnline` (tier A), `WileyParser._parse_pubdate` sets
`pubdate_electronic` to a `firstOnline` date (precisely: the date of the
first such node), and never to a `publishedOnlineFinalForm` (tier B) or
`publishedOnlineAccepted` (tier C) date, regardless of the order in which
the event nodes appear in the document. -/
theorem wiley_pubdate_tierA_priority (w : WileyInput) (d : MetaDict)
    (e : String × String)
    (h : w.events.find? (fun p => p.1 == "firstOnline") = some e) :
    getKey "pubdate_electronic" (wiley_parse_pubdate w d) = some (MValue.str e.2) ∧
    e ∈ w.events ∧ e.1 = "firstOnline" := by
  refine ⟨getKey_pubdate_electronic w d e.2 (pubdateLoop_firstOnline _ _ _ _ h),
    List.mem_of_find?_eq_some h, ?_⟩
  have hp := List.find?_some h
  exact beq_iff_eq.mp hp

/-- Witness for C1: a record where tier-B and tier-C events surround the
`firstOnline` event in document order still yields the `firstOnline`
date. -/
theorem wiley_pubdate_tierA_priority_witness :
    getKey "pubdate_electronic"
      (wiley_parse_pubdate
        (wEvOnly [("publishedOnlineFinalForm", "2001-02-03"),
          ("firstOnline", "2001-01-01"),
          ("publishedOnlineAccepted", "2001-03-04")]) []) =
      some (MValue.str "2001-01-01") ∧
    ("firstOnline", "2001-01-01") ∈
      (wEvOnly [("publishedOnlineFinalForm", "2001-02-03"),
        ("firstOnline", "2001-01-01"),
        ("publishedOnlineAccepted", "2001-03-04")]).events ∧
    ("firstOnline", ("2001-01-01" : String)).1 = "firstOnline" :=
  wiley_pubdate_tierA_priority
    (wEvOnly [("publishedOnlineFinalForm", "2001-02-03"),
      ("firstOnline", "2001-01-01"),
      ("publishedOnlineAccepted", "2001-03-04")]) []
    ("firstOnline", "2001-01-01") (by decide)

/-- Counterexample to C6: with two `firstOnline` events and no higher
tier, `_parse_pubdate` keeps the date of the FIRST such node in document
order (the loop breaks at the first tier-A match), not of the last. -/
theorem wiley_pubdate_lastwins_cex :
    getKey "pubdate_electronic"
      (wiley_parse_pubdate
        (wEvOnly [("firstOnline", "1111-01-01"), ("firstOnline", "2222-02-02")]) []) =
      some (MValue.str "1111-01-01") ∧
    ¬ ("1111-01-01" : String) = "2222-02-02" := by
  decide

/-- C6 amended: within tier B (`publishedOnlineFinalForm`, when no tier-A
event exists) and within tier C (`publishedOnlineAccepted`, when no
tier-A or tier-B event exists) the last node in document order wins; for
tier A (`firstOnline`) the loop stops at the FIRST such node, so with two
or more `firstOnline` events `pubdate_electronic` equals the date of the
first one. -/
theorem wiley_pubdate_tier_lastwins_amended :
    (∀ (w : WileyInput) (d : MetaDict) (e : String × String),
      w.events.find? (fun p => p.1 == "firstOnline") = some e →
      getKey "pubdate_electronic" (wiley_parse_pubdate w d) =
        some (MValue.str e.2)) ∧
    (∀ (w : WileyInput) (d : MetaDict) (e : String × String),
      (∀ y ∈ w.events, y.1 ≠ "firstOnline") →
      lastFind (fun y => y.1 == "publishedOnlineFinalForm") w.events = some e →
      getKey "pubdate_electronic" (wiley_parse_pubdate w d) =
        some (MValue.str e.2)) ∧
    (∀ (w : WileyInput) (d : MetaDict) (e : String × String),
      (∀ y ∈ w.events, y.1 ≠ "firstOnline" ∧ y.1 ≠ "publishedOnlineFinalForm") →
      lastFind (fun y => y.1 == "publishedOnlineAccepted") w.events = some e →
      getKey "pubdate_electronic" (wiley_parse_pubdate w d) =
        some (MValue.str e.2)) :=
  ⟨fun w d e h => getKey_pubdate_electronic w d e.2 (pubdateLoop_firstOnline _ _ _ _ h),
   fun w d e hA h => getKey_pubdate_electronic w d e.2 (pubdateLoop_lastB _ _ _ _ hA h),
   fun w d e hAB h => getKey_pubdate_electronic w d e.2 (pubdateLoop_lastC _ _ _ hAB h)⟩

/-- Witness for the amended C6: first-wins inside tier A, last-wins
inside tiers B and C. -/
theorem wiley_pubdate_tier_lastwins_amended_witness :
    getKey "pubdate_electronic"
      (wiley_parse_pubdate
        (wEvOnly [("firstOnline", "2001-01-01"), ("firstOnline", "2002-02-02")]) []) =
      some (MValue.str "2001-01-01") ∧
    getKey "pubdate_electronic"
      (wiley_parse_pubdate
        (wEvOnly [("publishedOnlineFinalForm", "2003-03-03"),
          ("publishedOnlineFinalForm", "2004-04-04")]) []) =
      some (MValue.str "2004-04-04") ∧
    getKey "pubdate_electronic"
      (wiley_parse_pubdate
        (wEvOnly [("publishedOnlineAccepted", "2005-05-05"),
          ("publishedOnlineAccepted", "2006-06-06")]) []) =
      some (MValue.str "2006-06-06") :=
  ⟨wiley_pubdate_tier_lastwins_amended.1
      (wEvOnly [("firstOnline", "2001-01-01"), ("firstOnline", "2002-02-02")]) []
      ("firstOnline", "2001-01-01") (by decide),
   wiley_pubdate_tier_lastwins_amended.2.1
      (wEvOnly [("publishedOnlineFinalForm", "2003-03-03"),
        ("publishedOnlineFinalForm", "2004-04-04")]) []
      ("publishedOnlineFinalForm", "2004-04-04") (by decide) (by decide),
   wiley_pubdate_tier_lastwins_amended.2.2
      (wEvOnly [("publishedOnlineAccepted", "2005-05-05"),
        ("publishedOnlineAccepted", "2006-06-06")]) []
      ("publishedOnlineAccepted", "2006-06-06") (by decide) (by decide)⟩

/-- C2: `ArxivParser.parse` raises `NoSchemaException` when the
`xmlns:oai_dc` attribute is absent or empty, `WrongSchemaException` when
it is present but not in `DUBCORE_SCHEMA`, and proceeds to field
extraction exactly when it is a supported schema value. -/
theorem arxiv_schema_dispatch :
    (∀ (np : String → List String) (clean : String → String) (w : ArxivInput),
      w.schemaAttr.getD "" = "" →
      arxivParse np clean w = .error "NoSchemaException") ∧
    (∀ (np : String → List String) (clean : String → String) (w : ArxivInput)
      (s : String),
      w.schemaAttr = some s → s ≠ "" → s ∉ DUBCORE_SCHEMA →
      arxivParse np clean w = .error "WrongSchemaException") ∧
    (∀ (np : String → List String) (clean : String → String) (w : ArxivInput),
      w.schemaAttr.getD "" ∈ DUBCORE_SCHEMA →
      arxivParse np clean w = arxivExtract np clean w) := by
  refine ⟨?_, ?_, ?_⟩
  · intro np clean w h
    simp [arxivParse, h]
  · intro np clean w s hs hne hmem
    simp [arxivParse, hs, hne, hmem]
  · intro np clean w h
    have hne : ¬ w.schemaAttr.getD "" = "" := by
      intro he
      rw [he] at h
      simp [DUBCORE_SCHEMA] at h
    simp [arxivParse, hne, h]

/-- Witness for C2 at three concrete records: schema absent, schema
unsupported, schema supported. -/
theorem arxiv_schema_dispatch_witness :
    arxivParse np1 id arxNoSchema = .error "NoSchemaException" ∧
    arxivParse np1 id arxWrong = .error "WrongSchemaException" ∧
    arxivParse np1 id arxOk = arxivExtract np1 id arxOk :=
  ⟨arxiv_schema_dispatch.1 np1 id arxNoSchema (by decide),
   arxiv_schema_dispatch.2.1 np1 id arxWrong "http://example.org/other-schema"
     rfl (by decide) (by decide),
   arxiv_schema_dispatch.2.2 np1 id arxOk (by decide)⟩

/-- C7: `ArxivParser._parse_title` raises `MissingTitleException` on zero
`dc:title` nodes, stores the cleaned text of a single node, and stores
the cleaned `": "`-joined concatenation of two or more nodes in document
order. -/
theorem arxiv_title_cases :
    (∀ (clean : String → String) (d : MetaDict),
      arxiv_parse_title clean [] d = .error "MissingTitleException") ∧
    (∀ (clean : String → String) (t : String) (d : MetaDict),
      arxiv_parse_title clean [t] d =
        .ok (setKey d "title" (MValue.str (clean t)))) ∧
    (∀ (clean : String → String) (t1 t2 : String) (ts : List String) (d : MetaDict),
      arxiv_parse_title clean (t1 :: t2 :: ts) d =
        .ok (setKey d "title"
          (MValue.str (clean (String.intercalate ": " (t1 :: t2 :: ts)))))) :=
  ⟨fun _ _ => rfl, fun _ _ _ => rfl, fun _ _ _ _ _ => rfl⟩

/-- Counterexample to C8: for header identifier text `"1234:doi:xyz"` and
a `doi:xyz` identifier node, the stored preprint id is `"xyz"` (the LAST
colon-split segment), not `"1234"`. -/
theorem arxiv_ids_scenario_cex :
    getKey "ids" (resultDict (arxiv_parse_ids (some "1234:doi:xyz") ["doi:xyz"] [])) =
      some (MValue.idsA (some ("arXiv", "xyz")) (some "xyz")) ∧
    ¬ ("xyz" : String) = "1234" := by
  decide

/-- C8 amended: on that input `ids.doi == "xyz"` and
`ids.preprint.id == "xyz"`: the final colon-split segment of the primary
identifier (in general `lastSegColon`), which here is `"xyz"`, not
`"1234"`. -/
theorem arxiv_ids_scenario_amended :
    (getKey "ids" (resultDict (arxiv_parse_ids (some "1234:doi:xyz") ["doi:xyz"] [])) =
      some (MValue.idsA (some ("arXiv", "xyz")) (some "xyz"))) ∧
    (∀ (s : String) (d : MetaDict),
      getKey "ids" (resultDict (arxiv_parse_ids (some s) [] d)) =
        some (MValue.idsA (some ("arXiv", lastSegColon s)) none)) :=
  ⟨by decide, fun _ _ => rfl⟩

theorem afterRecordMatch_ok (attrs : List Char) (h1 : ∀ c ∈ attrs, c ≠ '>')
    (h2 : attrs.head? ≠ some '-') : afterRecordMatch (attrs ++ ['>']) = true := by
  unfold afterRecordMatch
  rw [List.getLast?_concat, List.dropLast_concat]
  have hall : attrs.all (fun c => !(c == '>')) = true := by
    rw [List.all_eq_true]
    intro c hc
    simpa using h1 c hc
  rw [hall]
  have hh : ((attrs ++ ['>']).head? == some '-') = false := by
    cases attrs with
    | nil => decide
    | cons a t =>
      simp only [List.cons_append, List.head?_cons]
      have ha : a ≠ '-' := by
        intro he
        exact h2 (by simp [he])
      simpa using ha
  rw [hh]
  rfl

/-- Counterexample to C9: the lookahead of `start_re`/`end_re` excludes
only a hyphen, so the tag `<records>`, whose name extends `record` with a
non-hyphen character, IS matched by both boundary patterns. -/
theorem multiarxiv_boundary_cex :
    startReMatchS "<records>" = true ∧ endReMatchS "</records>" = true := by
  decide

/-- C9 amended: `start_re` / `end_re` match every `<record ...>` /
`</record ...>` tag (any `>`-free attribute text not starting with `-`),
and reject a tag with `-` right after the name (`<record-stub>`), but the
negative lookahead excludes only `-`, so an extended name such as
`<records>` is still matched. -/
theorem multiarxiv_boundary_amended :
    (∀ attrs : List Char, (∀ c ∈ attrs, c ≠ '>') → attrs.head? ≠ some '-' →
      startReMatch ('<' :: 'r' :: 'e' :: 'c' :: 'o' :: 'r' :: 'd' :: (attrs ++ ['>'])) =
        true) ∧
    (∀ attrs : List Char, (∀ c ∈ attrs, c ≠ '>') → attrs.head? ≠ some '-' →
      endReMatch ('<' :: '/' :: 'r' :: 'e' :: 'c' :: 'o' :: 'r' :: 'd' :: (attrs ++ ['>'])) =
        true) ∧
    startReMatchS "<record-stub>" = false ∧
    endReMatchS "</record-stub>" = false ∧
    startReMatchS "<records>" = true ∧
    endReMatchS "</records>" = true := by
  refine ⟨?_, ?_, by decide, by decide, by decide, by decide⟩
  · intro attrs h1 h2
    exact afterRecordMatch_ok attrs h1 h2
  · intro attrs h1 h2
    exact afterRecordMatch_ok attrs h1 h2

/-- Witness for the amended C9 at a concrete attribute run. -/
theorem multiarxiv_boundary_amended_witness :
    startReMatch
      ('<' :: 'r' :: 'e' :: 'c' :: 'o' :: 'r' :: 'd' :: ([' ', 'x'] ++ ['>'])) = true ∧
    endReMatch
      ('<' :: '/' :: 'r' :: 'e' :: 'c' :: 'o' :: 'r' :: 'd' :: ([' ', 'x'] ++ ['>'])) =
      true :=
  ⟨multiarxiv_boundary_amended.1 [' ', 'x'] (by decide) (by decide),
   multiarxiv_boundary_amended.2.1 [' ', 'x'] (by decide) (by decide)⟩

theorem getKey_foldl {α : Type} (k : String) (f : MetaDict → α → MetaDict)
    (l : List α) (h : ∀ d a, getKey k (f d a) = getKey k d) :
    ∀ d, getKey k (l.foldl f d) = getKey k d := by
  induction l with
  | nil => intro d; rfl
  | cons x t ih => intro d; rw [List.foldl_cons, ih, h]

theorem getKey_foldl_pair {α : Type} (k : String)
    (f : Option String × MetaDict → α → Option String × MetaDict) (l : List α)
    (h : ∀ b a, getKey k (f b a).2 = getKey k b.2) :
    ∀ b, getKey k (l.foldl f b).2 = getKey k b.2 := by
  induction l with
  | nil => intro b; rfl
  | cons x t ih => intro b; rw [List.foldl_cons, ih, h]

theorem getKey_wiley_parse_ids (w : WileyInput) (d : MetaDict) (k : String)
    (h1 : k ≠ "ids") (h2 : k ≠ "issn") :
    getKey k (wiley_parse_ids w d) = getKey k d := by
  simp only [wiley_parse_ids]
  rw [getKey_setKey_ne _ _ _ _ h2, getKey_setKey_ne _ _ _ _ h1]

theorem getKey_wiley_parse_pub (w : WileyInput) (d : MetaDict) (k : String)
    (h1 : k ≠ "publication") (h2 : k ≠ "volume") (h3 : k ≠ "issue") :
    getKey k (wiley_parse_pub w d) = getKey k d := by
  simp only [wiley_parse_pub]
  rw [getKey_foldl k _ _ ?hB, getKey_foldl k _ _ ?hA]
  case hA =>
    intro d t
    by_cases hm : t.1 = "main"
    · simp [hm, getKey_setKey_ne _ _ _ _ h1]
    · simp [hm]
  case hB =>
    intro d n
    by_cases hv : n.1 = "journalVolume"
    · simp [hv, getKey_setKey_ne _ _ _ _ h2]
    · by_cases hi : n.1 = "journalIssue"
      · simp [hv, hi, getKey_setKey_ne _ _ _ _ h3]
      · simp [hv, hi]

theorem getKey_wileyPageNumStep (b : Option String × MetaDict) (n : String × String)
    (k : String) (h1 : k ≠ "page_last") :
    getKey k (wileyPageNumStep b n).2 = getKey k b.2 := by
  unfold wileyPageNumStep
  by_cases ha : n.1 = "pageFirst"
  · simp [ha]
  · by_cases hb : n.1 = "pageLast"
    · by_cases hc : n.2 = "n/a" ∨ n.2 = "no"
      · simp [ha, hb, hc]
      · simp [ha, hb, hc, getKey_setKey_ne _ _ _ _ h1]
    · simp [ha, hb]

theorem getKey_wileyPageIdStep (b : Option String × MetaDict) (i : UnitId)
    (k : String) (h2 : k ≠ "electronic_id") :
    getKey k (wileyPageIdStep b i).2 = getKey k b.2 := by
  unfold wileyPageIdStep
  by_cases he : i.idType = "eLocator"
  · simp [he, getKey_setKey_ne _ _ _ _ h2]
  · simp [he]

theorem getKey_wiley_parse_page (w : WileyInput) (d : MetaDict) (k : String)
    (h1 : k ≠ "page_last") (h2 : k ≠ "electronic_id") (h3 : k ≠ "page_first")
    (h4 : k ≠ "numpages") :
    getKey k (wiley_parse_page w d) = getKey k d := by
  have p1 : getKey k (wileyPagePhase1 w d).2 = getKey k d :=
    getKey_foldl_pair k _ _ (fun b a => getKey_wileyPageNumStep b a k h1) (none, d)
  have p2 : ∀ acc : Option String × MetaDict,
      getKey k (wileyPagePhase2 w acc).2 = getKey k acc.2 := by
    intro acc
    unfold wileyPagePhase2
    by_cases hn : acc.1 = none
    · rw [if_pos hn]
      exact getKey_foldl_pair k _ _ (fun b a => getKey_wileyPageIdStep b a k h2) (none, acc.2)
    · rw [if_neg hn]
  have p3 : ∀ acc : Option String × MetaDict,
      getKey k (wileyPagePhase3 acc) = getKey k acc.2 := by
    intro acc
    unfold wileyPagePhase3
    cases hacc : acc.1 with
    | none => simp [hacc]
    | some p =>
      by_cases hp : p = "n/a" ∨ p = "no"
      · simp [hacc, hp]
      · simp [hacc, hp, getKey_setKey_ne _ _ _ _ h3]
  have p4 : ∀ d : MetaDict, getKey k (wileyPagePhase4 w d) = getKey k d := by
    intro d
    unfold wileyPagePhase4
    cases hc : w.countGroupCount with
    | none => rfl
    | some c =>
      by_cases ht : c.1 = "pageTotal"
      · simp [ht, getKey_setKey_ne _ _ _ _ h4]
      · simp [ht]
  unfold wiley_parse_page
  rw [p4, p3, p2, p1]

theorem getKey_wiley_parse_pubdate (w : WileyInput) (d : MetaDict) (k : String)
    (h1 : k ≠ "pubdate_print") (h2 : k ≠ "pubdate_electronic") :
    getKey k (wiley_parse_pubdate w d) = getKey k d := by
  cases hc : w.coverDate <;> cases hp : pubdateLoop w.events none false <;>
    simp [wiley_parse_pubdate, hc, hp, getKey_setKey_ne, h1, h2]

theorem getKey_wiley_parse_edhistory (w : WileyInput) (d : MetaDict) (k : String)
    (h1 : k ≠ "edhist_rev") (h2 : k ≠ "edhist_rec") (h3 : k ≠ "edhist_acc") :
    getKey k (wiley_parse_edhistory w d) = getKey k d := by
  unfold wiley_parse_edhistory
  rw [getKey_foldl k _ _ ?hstep]
  case hstep =>
    intro d e
    by_cases ha : e.1 = "manuscriptRevised"
    · simp [ha, getKey_setKey_ne _ _ _ _ h1]
    · by_cases hb : e.1 = "manuscriptReceived"
      · simp [ha, hb, getKey_setKey_ne _ _ _ _ h2]
      · by_cases hc : e.1 = "manuscriptAccepted"
        · simp [ha, hb, hc, getKey_setKey_ne _ _ _ _ h3]
        · simp [ha, hb, hc]

theorem getKey_wiley_parse_title_abstract (clean : String → String)
    (w : WileyInput) (d : MetaDict) (k : String)
    (h1 : k ≠ "title") (h2 : k ≠ "abstract") :
    getKey k (wiley_parse_title_abstract clean w d) = getKey k d := by
  have hT : ∀ (d : MetaDict) (t : String × String),
      getKey k (if t.1 = "main" then setKey d "title" (MValue.str t.2) else d) =
        getKey k d := by
    intro d t
    by_cases hm : t.1 = "main"
    · simp [hm, getKey_setKey_ne _ _ _ _ h1]
    · simp [hm]
  have hA : ∀ (d : MetaDict) (a : String × String),
      getKey k (if a.1 = "main" then setKey d "abstract" (MValue.str (clean a.2)) else d) =
        getKey k d := by
    intro d a
    by_cases hm : a.1 = "main"
    · simp [hm, getKey_setKey_ne _ _ _ _ h2]
    · simp [hm]
  cases ht : w.titleGroup with
  | none =>
    cases ha : w.abstractGroup with
    | none => simp [wiley_parse_title_abstract, ht, ha]
    | some al =>
      simp only [wiley_parse_title_abstract, ht, ha]
      exact getKey_foldl k _ _ hA d
  | some tl =>
    cases ha : w.abstractGroup with
    | none =>
      simp only [wiley_parse_title_abstract, ht, ha]
      exact getKey_foldl k _ _ hT d
    | some al =>
      simp only [wiley_parse_title_abstract, ht, ha]
      rw [getKey_foldl k _ _ hA, getKey_foldl k _ _ hT]

theorem getKey_wiley_parse_copyright (w : WileyInput) (d : MetaDict) (k : String)
    (h1 : k ≠ "copyright") :
    getKey k (wiley_parse_copyright w d) = getKey k d := by
  unfold wiley_parse_copyright
  cases hc : w.copyrightText with
  | none => rfl
  | some c => exact getKey_setKey_ne _ _ _ _ h1

theorem getKey_wiley_parse_authors (w : WileyInput) (d r : MetaDict) (k : String)
    (h1 : k ≠ "authors") (h : wiley_parse_authors w d = .ok r) :
    getKey k r = getKey k d := by
  unfold wiley_parse_authors at h
  cases hb : buildAuthors w.affiliations w.creators none [] with
  | error e =>
    simp only [hb] at h
    exact absurd h (by simp)
  | ok al =>
    simp only [hb] at h
    by_cases he : al.isEmpty
    · rw [if_pos he] at h
      simp only [Except.ok.injEq] at h
      rw [h]
    · rw [if_neg he] at h
      simp only [Except.ok.injEq] at h
      rw [← h]
      exact getKey_setKey_ne _ _ _ _ h1

theorem getKey_wiley_parse_references (w : WileyInput) (d : MetaDict) (k : String)
    (h1 : k ≠ "references") :
    getKey k (wiley_parse_references w d) = getKey k d := by
  unfold wiley_parse_references
  cases hb : w.bib with
  | none => rfl
  | some cits => exact getKey_setKey_ne _ _ _ _ h1

theorem resultDict_ok (d : MetaDict) : resultDict (Except.ok d) = d := rfl

theorem resultDict_error (e : String) : resultDict (Except.error e) = [] := rfl

theorem wiley_parse_keywords_id (kws : List String) (d : MetaDict) :
    wiley_parse_keywords kws d = d := rfl

theorem getKey_wileyPreAuthors (clean : String → String) (w : WileyInput)
    (k : String) (h1 : k ≠ "ids") (h2 : k ≠ "issn") (h3 : k ≠ "publication")
    (h4 : k ≠ "volume") (h5 : k ≠ "issue") (h6 : k ≠ "page_last")
    (h7 : k ≠ "electronic_id") (h8 : k ≠ "page_first") (h9 : k ≠ "numpages")
    (h10 : k ≠ "pubdate_print") (h11 : k ≠ "pubdate_electronic")
    (h12 : k ≠ "edhist_rev") (h13 : k ≠ "edhist_rec") (h14 : k ≠ "edhist_acc")
    (h15 : k ≠ "title") (h16 : k ≠ "abstract") (h17 : k ≠ "copyright") :
    getKey k (wileyPreAuthors clean w) = none := by
  unfold wileyPreAuthors
  rw [getKey_wiley_parse_copyright _ _ _ h17,
    getKey_wiley_parse_title_abstract _ _ _ _ h15 h16,
    getKey_wiley_parse_edhistory _ _ _ h12 h13 h14,
    getKey_wiley_parse_pubdate _ _ _ h10 h11,
    getKey_wiley_parse_page _ _ _ h6 h7 h8 h9,
    getKey_wiley_parse_pub _ _ _ h3 h4 h5,
    getKey_wiley_parse_ids _ _ _ h1 h2]
  rfl

/-- C10: `_parse_keywords` returns the record unchanged (its keyword list
is a dead local), and the record returned by `WileyParser.parse` never
contains a `keywords` field, for any input document. -/
theorem wiley_keywords_never_stored :
    (∀ (kws : List String) (d : MetaDict), wiley_parse_keywords kws d = d) ∧
    (∀ (clean : String → String) (w : WileyInput),
      getKey "keywords" (resultDict (wileyParse clean w)) = none) := by
  refine ⟨fun kws d => rfl, ?_⟩
  intro clean w
  unfold wileyParse
  cases hA : wiley_parse_authors w (wileyPreAuthors clean w) with
  | error e => rfl
  | ok d2 =>
    rw [resultDict_ok, getKey_wiley_parse_references _ _ _ (by decide),
      wiley_parse_keywords_id,
      getKey_wiley_parse_authors w _ d2 "keywords" (by decide) hA]
    exact getKey_wileyPreAuthors clean w "keywords" (by decide) (by decide)
      (by decide) (by decide) (by decide) (by decide) (by decide) (by decide)
      (by decide) (by decide) (by decide) (by decide) (by decide) (by decide)
      (by decide) (by decide) (by decide)

/-- Emptiness of the flattened arXiv author list forces the
`MissingAuthorsException` branch (arxiv.py lines 96-97). -/
theorem arxiv_parse_author_empty (np : String → List String)
    (creators : List String) (d : MetaDict)
    (h : (creators.map np).flatten = []) :
    arxiv_parse_author np creators d = .error "MissingAuthorsException" := by
  simp [arxiv_parse_author, h]

/-- Counterexample to C3: a Wiley document yielding zero author entries
parses successfully (no `MissingAuthorsException`), simply omitting the
`authors` key. -/
theorem wiley_no_authors_cex :
    isOkE (wileyParse id (wEvOnly [])) = true ∧
    getKey "authors" (resultDict (wileyParse id (wEvOnly []))) = none := by
  decide

/-- C3 amended: a record yielding zero author entries makes
`ArxivParser.parse` fail with `MissingAuthorsException` (never producing
a record), while `WileyParser.parse` raises nothing and emits a record
without the `authors` key. -/
theorem missing_authors_amended :
    (∀ (np : String → List String) (creators : List String) (d : MetaDict),
      (creators.map np).flatten = [] →
      arxiv_parse_author np creators d = .error "MissingAuthorsException") ∧
    (∀ (np : String → List String) (clean : String → String) (w : ArxivInput),
      (w.dcCreators.map np).flatten = [] →
      isOkE (arxivParse np clean w) = false) ∧
    (∀ (clean : String → String) (w : WileyInput), w.creators = [] →
      isOkE (wileyParse clean w) = true ∧
      getKey "authors" (resultDict (wileyParse clean w)) = none) := by
  refine ⟨arxiv_parse_author_empty, ?_, ?_⟩
  · intro np clean w h
    by_cases hs : w.schemaAttr.getD "" = ""
    · simp [arxivParse, hs, isOkE]
    · by_cases hm : w.schemaAttr.getD "" ∈ DUBCORE_SCHEMA
      · simp only [arxivParse, if_neg hs, if_pos hm]
        unfold arxivExtract
        cases h1 : arxiv_parse_ids w.headerIdentifier w.dcIdentifiers [] with
        | error e => rfl
        | ok d1 =>
          dsimp only
          cases h2 : arxiv_parse_title clean w.dcTitles d1 with
          | error e => rfl
          | ok d2 =>
            dsimp only
            rw [arxiv_parse_author_empty np w.dcCreators d2 h]
            rfl
      · simp [arxivParse, hs, hm, isOkE]
  · intro clean w hc
    have hA : wiley_parse_authors w (wileyPreAuthors clean w) =
        .ok (wileyPreAuthors clean w) := by
      unfold wiley_parse_authors
      rw [hc]
      rfl
    constructor
    · simp [wileyParse, hA, isOkE]
    · simp only [wileyParse, hA]
      rw [resultDict_ok, getKey_wiley_parse_references _ _ _ (by decide),
        wiley_parse_keywords_id]
      exact getKey_wileyPreAuthors clean w "authors" (by decide) (by decide)
        (by decide) (by decide) (by decide) (by decide) (by decide) (by decide)
        (by decide) (by decide) (by decide) (by decide) (by decide) (by decide)
        (by decide) (by decide) (by decide)

/-- Witness for the amended C3 at concrete records. -/
theorem missing_authors_amended_witness :
    arxiv_parse_author npNone ["The ATLAS Collaboration"] [] =
      .error "MissingAuthorsException" ∧
    isOkE (arxivParse npNone id arxOk) = false ∧
    (isOkE (wileyParse id (wEvOnly [("firstOnline", "2001-01-01")])) = true ∧
      getKey "authors"
        (resultDict (wileyParse id (wEvOnly [("firstOnline", "2001-01-01")]))) = none) :=
  ⟨missing_authors_amended.1 npNone ["The ATLAS Collaboration"] [] rfl,
   missing_authors_amended.2.1 npNone id arxOk rfl,
   missing_authors_amended.2.2 id (wEvOnly [("firstOnline", "2001-01-01")]) rfl⟩

/-- C4 evaluated at the failing input: an unresolvable `affiliationRef`
label does not silently drop the author entry; the `xaffs.append(akey)`
line reads the never-assigned local `akey`, so the whole parse aborts
with `UnboundLocalError` and no author (resolvable or not) is emitted. -/
theorem wiley_unresolved_aff_crash :
    wileyParse id wBadAff = .error "UnboundLocalError" ∧
    buildAuthors wBadAff.affiliations wBadAff.creators none [] =
      .error "UnboundLocalError" := by
  decide

theorem resolveAffs_len (affD : List (String × String)) :
    ∀ (ls : List String) (akey : Option String) (xa af : List String)
      (res : List String × List String × Option String),
      resolveAffs affD ls akey xa af = .ok res →
      xa.length = af.length → res.1.length = res.2.1.length := by
  intro ls
  induction ls with
  | nil =>
    intro akey xa af res h hlen
    unfold resolveAffs at h
    simp only [Except.ok.injEq] at h
    rw [← h]
    exact hlen
  | cons a rest ih =>
    intro akey xa af res h hlen
    unfold resolveAffs at h
    cases hk : nextAkey affD a akey with
    | none => simp [hk] at h
    | some kk =>
      simp only [hk] at h
      cases hv : dictGetLast affD kk with
      | none => simp [hv] at h
      | some v =>
        simp only [hv] at h
        exact ih (some kk) (xa ++ [kk]) (af ++ [v]) res h (by simp [hlen])

theorem buildAuthor_aff_len (affD : List (String × String))
    (akey : Option String) (c : Creator) (a : AuthorEntry)
    (akey' : Option String) (h : buildAuthor affD akey c = .ok (a, akey')) :
    ∀ affL xaffL, a.aff = some affL → a.xaff = some xaffL →
      affL.length = xaffL.length := by
  unfold buildAuthor at h
  cases hr : c.affiliationRef with
  | none =>
    simp only [hr, Except.ok.injEq, Prod.mk.injEq] at h
    intro affL xaffL haff _
    rw [← h.1] at haff
    simp at haff
  | some ref =>
    simp only [hr] at h
    cases hres : resolveAffs affD (pySplitWs ref) akey [] [] with
    | error e => simp [hres] at h
    | ok res =>
      obtain ⟨xa, af, ak⟩ := res
      simp only [hres, Except.ok.injEq, Prod.mk.injEq] at h
      intro affL xaffL haff hxaff
      rw [← h.1] at haff hxaff
      simp only at haff hxaff
      have hlen : xa.length = af.length :=
        resolveAffs_len affD (pySplitWs ref) akey [] [] (xa, af, ak) hres rfl
      have haf : af = affL := by simpa using haff
      have hxa : xa = xaffL := by simpa using hxaff
      rw [← haf, ← hxa]
      exact hlen.symm

theorem buildAuthors_aff_len (affD : List (String × String)) :
    ∀ (cs : List Creator) (akey : Option String) (acc L : List AuthorEntry),
      (∀ a ∈ acc, ∀ affL xaffL, a.aff = some affL → a.xaff = some xaffL →
        affL.length = xaffL.length) →
      buildAuthors affD cs akey acc = .ok L →
      ∀ a ∈ L, ∀ affL xaffL, a.aff = some affL → a.xaff = some xaffL →
        affL.length = xaffL.length := by
  intro cs
  induction cs with
  | nil =>
    intro akey acc L hacc h
    unfold buildAuthors at h
    simp only [Except.ok.injEq] at h
    rw [← h]
    exact hacc
  | cons c rest ih =>
    intro akey acc L hacc h
    unfold buildAuthors at h
    cases hba : buildAuthor affD akey c with
    | error e => simp [hba] at h
    | ok p =>
      obtain ⟨a0, ak'⟩ := p
      simp only [hba] at h
      refine ih ak' (acc ++ [a0]) L ?_ h
      intro a ha
      rcases List.mem_append.mp ha with ha | ha
      · exact hacc a ha
      · have hae : a = a0 := by simpa using ha
        subst hae
        exact buildAuthor_aff_len affD akey c a ak' hba

/-- C5: every author entry emitted by `WileyParser._parse_authors` that
carries both the `aff` and `xaff` keys stores lists of equal length,
for every affiliation table built from the fragment. -/
theorem wiley_aff_xaff_same_len (w : WileyInput) (L : List AuthorEntry)
    (h : buildAuthors w.affiliations w.creators none [] = .ok L) :
    ∀ a ∈ L, ∀ affL xaffL, a.aff = some affL → a.xaff = some xaffL →
      affL.length = xaffL.length :=
  buildAuthors_aff_len w.affiliations w.creators none [] L (by simp) h

/-- Witness for C5 at a concrete creator with two resolved labels. -/
theorem wiley_aff_xaff_same_len_witness :
    (["University One", "University Two"] : List String).length =
      (["a1", "a2"] : List String).length :=
  wiley_aff_xaff_same_len wGoodAff
    [⟨some "Ann", some "Author", none, none,
      some ["University One", "University Two"], some ["a1", "a2"]⟩]
    (by decide)
    ⟨some "Ann", some "Author", none, none,
      some ["University One", "University Two"], some ["a1", "a2"]⟩
    (by decide)
    ["University One", "University Two"] ["a1", "a2"] rfl rfl
